import Mathlib

/-
Formal model of the data-cleaning pipeline of the rain-gamma-spikes-france
repository.  The definitions below are shallow embeddings of the Python
functions in src/utils/clean_data.py, src/utils/utils.py and the
configuration tables in config.py.  Tables are modelled as lists of typed
records, machine floats that only ever carry exact CSV values are modelled
as rationals, pandas datetimes as integers (a day index), and nullable
cells as Option values.  Library functions whose exact value tables are
external (Python str.upper, the unidecode library, pd.to_datetime, and the
haversine metric of sklearn BallTree) are modelled by explicit character
tables with identity as default, respectively kept as parameters of the
embedding, as documented at each definition.
-/

/-! ## Generic helpers -/

/-- Total association lookup with identity as default: the first pair whose
key equals the query decides the value, otherwise the query itself is
returned unchanged. -/
def tlookup {α : Type} [DecidableEq α] : List (α × α) → α → α
  | [], c => c
  | (k, v) :: rest, c => if c = k then v else tlookup rest c

/-- Insertion of an element into a list sorted by the boolean relation
`le`, used to model the sort steps of the pipeline. -/
def insertBy {α : Type} (le : α → α → Bool) (x : α) : List α → List α
  | [] => [x]
  | y :: ys => if le x y then x :: y :: ys else y :: insertBy le x ys

/-- Insertion sort by a boolean relation; models pandas sort_values (any
correct order for the given key suffices for the claims). -/
def sortBy {α : Type} (le : α → α → Bool) : List α → List α
  | [] => []
  | x :: xs => insertBy le x (sortBy le xs)

/-- Keep-first deduplication by a key, with an accumulator of keys already
seen; models pandas drop_duplicates(subset=key, keep="first"), and is also
used to model the distinct group keys of pandas groupby. -/
def keepFirstBy {α β : Type} [DecidableEq β] (key : α → β) : List α → List β → List α
  | [], _ => []
  | x :: xs, seen =>
    if key x ∈ seen then keepFirstBy key xs seen
    else x :: keepFirstBy key xs (key x :: seen)

/-! ## Municipality-name normalization

Model of the normalization applied in clean_radiation_data
(clean_data.py lines 120-126) and clean_municipality_data (lines 145-153):
`.str.upper()`, then `unidecode.unidecode`, then
`.str.replace(r"^L'", "", regex=True)`.

Python str.upper and unidecode are external library functions; they are
modelled character-wise by the tables below, which cover the French
alphabet the pipeline meets (ASCII letters and accented vowels plus the
cedilla), with identity on every other character.  The anchored regex
replacement removes at most one leading "L" + apostrophe, because `^` only
matches at position zero. -/

/-- Apostrophe character (code point 39). -/
def apos : Char := Char.ofNat 39

/-- Character table of Python str.upper restricted to the French alphabet:
ASCII lowercase and accented lowercase letters map to their uppercase
forms. -/
def upperPairs : List (Char × Char) :=
  [('a', 'A'), ('b', 'B'), ('c', 'C'), ('d', 'D'), ('e', 'E'), ('f', 'F'),
   ('g', 'G'), ('h', 'H'), ('i', 'I'), ('j', 'J'), ('k', 'K'), ('l', 'L'),
   ('m', 'M'), ('n', 'N'), ('o', 'O'), ('p', 'P'), ('q', 'Q'), ('r', 'R'),
   ('s', 'S'), ('t', 'T'), ('u', 'U'), ('v', 'V'), ('w', 'W'), ('x', 'X'),
   ('y', 'Y'), ('z', 'Z'),
   ('à', 'À'), ('â', 'Â'), ('ä', 'Ä'), ('é', 'É'), ('è', 'È'), ('ê', 'Ê'),
   ('ë', 'Ë'), ('î', 'Î'), ('ï', 'Ï'), ('ô', 'Ô'), ('ö', 'Ö'), ('ù', 'Ù'),
   ('û', 'Û'), ('ü', 'Ü'), ('ç', 'Ç'), ('ÿ', 'Ÿ')]

/-- Character table of the unidecode library on the uppercase accented
letters produced by the preceding upper step: diacritics are stripped. -/
def unidecodePairs : List (Char × Char) :=
  [('À', 'A'), ('Â', 'A'), ('Ä', 'A'), ('É', 'E'), ('È', 'E'), ('Ê', 'E'),
   ('Ë', 'E'), ('Î', 'I'), ('Ï', 'I'), ('Ô', 'O'), ('Ö', 'O'), ('Ù', 'U'),
   ('Û', 'U'), ('Ü', 'U'), ('Ç', 'C'), ('Ÿ', 'Y')]

/-- Model of Python str.upper on one character. -/
def upperChar (c : Char) : Char := tlookup upperPairs c

/-- Model of unidecode.unidecode on one character. -/
def unidecodeChar (c : Char) : Char := tlookup unidecodePairs c

/-- Composite character normalization: upper then unidecode, in the order
the source applies them. -/
def normChar (c : Char) : Char := unidecodeChar (upperChar c)

/-- Removal of one leading "L" + apostrophe; models
`.str.replace(r"^L'", "", regex=True)`: the anchored pattern is replaced
at most once, at position zero. -/
def stripLApostrophe : List Char → List Char
  | c1 :: c2 :: rest => if c1 == 'L' && c2 == apos then rest else c1 :: c2 :: rest
  | [] => []
  | [c1] => [c1]

/-- Whether a character list starts with "L" + apostrophe. -/
def startsLA : List Char → Bool
  | c1 :: c2 :: _ => c1 == 'L' && c2 == apos
  | [] => false
  | [_] => false

/-- Normalization on character lists: upper, unidecode, then strip the
leading "L" + apostrophe, exactly the three steps of
clean_data.py lines 120-126 and 145-153. -/
def normalizeL (l : List Char) : List Char :=
  stripLApostrophe ((l.map upperChar).map unidecodeChar)

/-- Municipality-name normalization of the cleaners, as a String function
(the spec calls it `normalize`; that name is taken by Mathlib, hence the
longer one). -/
def normalizeName (s : String) : String := String.mk (normalizeL s.data)

/-! ## Radiation Concatenator (utils.py, concatenate_csv_files)

Model of concatenate_csv_files (utils.py lines 131-172).  A matching file
is a pair of its basename and its parsed rows; glob discovery order is the
list order.  Each row of a file is tagged with the collection medium
derived from the filename.  pandas concat of an empty list of frames
raises ValueError("No objects to concatenate"), modelled by the error
branch. -/

/-- Row of a raw radiation CSV file: an association list of column name to
cell text. -/
structure RadFileRow where
  payload : List (String × String)
  deriving DecidableEq

/-- Row of the concatenated radiation table: the original cells plus the
added collection-medium column. -/
structure RadTaggedRow where
  payload : List (String × String)
  medium : String
  deriving DecidableEq

/-- Medium token of a filename: the second underscore-delimited segment,
as in `file_name.split("_")[1]` (filenames matching the glob pattern
asnr_*_radiation_data_*.csv always have at least two segments). -/
def mediumNameOf (fileName : String) : String :=
  (fileName.splitOn "_").getD 1 ""

/-- Tag of a medium token: the mapped tag when the token is a key of the
mapping, otherwise the token itself (the else-branch of
utils.py lines 166-169). -/
def mediumTagOf (mapping : List (String × String)) (m : String) : String :=
  tlookup mapping m

/-- Model of concatenate_csv_files: tag every row of every matching file
with its medium, then concatenate; with no matching file, pandas concat
receives an empty list and raises. -/
def concatenate_csv_files (files : List (String × List RadFileRow))
    (mediumMapping : List (String × String)) : Except String (List RadTaggedRow) :=
  let dfs := files.map (fun f =>
    f.2.map (fun r => RadTaggedRow.mk r.payload (mediumTagOf mediumMapping (mediumNameOf f.1))))
  if dfs.isEmpty then Except.error "No objects to concatenate"
  else Except.ok dfs.flatten

/-- Medium-name-to-tag mapping of RADIATION_DATA_CONFIG (config.py lines
88-107): the tag field of each medium entry. -/
def RADIATION_medium_mapping : List (String × String) :=
  [("soil", "Sol"), ("water", "Eau")]

/-! ## Column schemas (config.py and the column bookkeeping of each stage)

These definitions track the column names of the pipeline tables, used to
settle the claim about the final rename.  Each stage function below states
the column transformation performed by the corresponding source lines. -/

/-- Required columns of the radiation table (config.py lines 108-119);
clean_radiation_data projects onto exactly these (clean_data.py line 129). -/
def RADIATION_DATA_CONFIG_required_columns : List String :=
  ["Date de début de prélèvement", "Date de fin de prélèvement", "Résultat",
   "Incertitude absolue", "Unité", "Commune", "Espèce", "Nature", "Radion",
   "Milieu de collecte"]

/-- Required columns of the cleaned municipality table (config.py lines
146-150). -/
def MUNICIPALITY_DATA_CONFIG_required_columns : List String :=
  ["nom", "latitude", "longitude"]

/-- Rename table of CLEANED_DATA_CONFIG (config.py lines 180-199). -/
def CLEANED_DATA_CONFIG_rename : List (String × String) :=
  [("Date de début de prélèvement", "Date start sampling radioactivity"),
   ("Date de fin de prélèvement", "Date end sampling radioactivity"),
   ("Résultat", "Result radioactivity"),
   ("Incertitude absolue", "Absolute uncertainty radioactivity"),
   ("Unité", "Unit radioactivity"),
   ("Commune", "Municipality name"),
   ("Espèce", "Species measurement environment radioactivity"),
   ("Nature", "Nature measurement environment radioactivity"),
   ("Radion", "Radionuclide"),
   ("Milieu de collecte", "Measurement environment"),
   ("latitude", "Latitude"),
   ("longitude", "Longitude"),
   ("DATE_METEO", "Date weather"),
   ("PRENEI", "Snowfall"),
   ("PRELIQ", "Rainfall"),
   ("DISTANCE_RADIATION_WEATHER_M", "Distance measurement weather and radiation m")]

/-- Column transformation of geolocate_radiation_data (clean_data.py lines
193-214): the left merge appends the municipality columns nom, latitude,
longitude (no name collision with the radiation columns), then the join
key column nom is dropped. -/
def geolocate_columns (radCols : List String) : List String :=
  (radCols ++ MUNICIPALITY_DATA_CONFIG_required_columns).erase "nom"

/-- Column transformation of associate_weather_to_radiation (clean_data.py
lines 351-362): each result dict holds the radiation columns followed by
the four added weather columns. -/
def associate_columns (geoCols : List String) : List String :=
  geoCols ++ ["DATE_METEO", "PRENEI", "PRELIQ", "DISTANCE_RADIATION_WEATHER_M"]

/-- Columns of the final table written by clean_all_data (clean_data.py
lines 59-69): the associator output is written as is; no rename is applied
anywhere between the association and to_csv. -/
def clean_all_data_output_columns : List String :=
  associate_columns (geolocate_columns RADIATION_DATA_CONFIG_required_columns)

/-- Rename of one column name through the CLEANED_DATA_CONFIG table, as
rename_columns (utils.py lines 241-265) would apply it. -/
def applyRename (c : String) : String := tlookup CLEANED_DATA_CONFIG_rename c

/-! ## Municipality Cleaner (clean_data.py, clean_municipality_data)

The raw gazetteer row carries the source columns named by
MUNICIPALITY_DATA_CONFIG (config.py lines 145-166); the population column
is numeric.  clean_municipality_data first assigns three new columns into
the DataFrame object it received (lines 146-161 mutate the argument),
then rebinds its local name to sorted, deduplicated and projected copies
(lines 164-170), which leaves the caller's object with the mutation of
the first step only. -/

/-- Row of the raw municipality gazetteer, with the columns the cleaner
reads: primary name, primary and fallback coordinates, population. -/
structure MunRaw where
  nom_standard_majuscule : String
  latitude_centre : Option ℚ
  latitude_mairie : Option ℚ
  longitude_centre : Option ℚ
  longitude_mairie : Option ℚ
  population : Int
  deriving DecidableEq

/-- State of the municipality DataFrame object: its raw rows plus the
three columns the cleaner may have assigned into it (none before the
call). -/
structure MunDF where
  rows : List MunRaw
  nom : Option (List String)
  latitude : Option (List (Option ℚ))
  longitude : Option (List (Option ℚ))
  deriving DecidableEq

/-- Cleaned name of a raw row (clean_data.py lines 146-153). -/
def munNomClean (r : MunRaw) : String := normalizeName r.nom_standard_majuscule

/-- Coalesced latitude: primary with fallback, as
`latitude_centre.fillna(latitude_mairie)` (clean_data.py lines 156-158). -/
def munLatClean (r : MunRaw) : Option ℚ :=
  r.latitude_centre.orElse (fun _ => r.latitude_mairie)

/-- Coalesced longitude (clean_data.py lines 159-161). -/
def munLonClean (r : MunRaw) : Option ℚ :=
  r.longitude_centre.orElse (fun _ => r.longitude_mairie)

/-- Working row of the cleaner after the three column assignments: the raw
row together with its cleaned name and coalesced coordinates. -/
structure MunClean where
  raw : MunRaw
  nom : String
  latitude : Option ℚ
  longitude : Option ℚ
  deriving DecidableEq

/-- Cleaned working row of a raw row. -/
def munCleanOf (r : MunRaw) : MunClean :=
  ⟨r, munNomClean r, munLatClean r, munLonClean r⟩

/-- Row of the cleaned municipality table: the projection onto the
required columns nom, latitude, longitude (clean_data.py line 170). -/
structure MunOut where
  nom : String
  latitude : Option ℚ
  longitude : Option ℚ
  deriving DecidableEq

/-- Projection of a working row onto the required columns. -/
def munProject (x : MunClean) : MunOut := ⟨x.nom, x.latitude, x.longitude⟩

/-- Descending-population comparison used by
`sort_values(population, ascending=False)` (clean_data.py line 165). -/
def popGe (a b : MunClean) : Bool := decide (b.raw.population ≤ a.raw.population)

/-- Model of clean_municipality_data.  The first component of the result
is the state of the DataFrame object the caller passed in after the call
(the three column assignments of lines 146-161 mutate it); the second
component is the returned cleaned table (sort by population descending,
drop duplicate cleaned names keeping the first, project onto the required
columns, lines 164-170). -/
def clean_municipality_data (df : MunDF) : MunDF × List MunOut :=
  let cleaned := df.rows.map munCleanOf
  let mutated : MunDF :=
    { rows := df.rows,
      nom := some (cleaned.map MunClean.nom),
      latitude := some (cleaned.map MunClean.latitude),
      longitude := some (cleaned.map MunClean.longitude) }
  let deduped := keepFirstBy MunClean.nom (sortBy popGe cleaned) []
  (mutated, deduped.map munProject)

/-! ## Geolocator (clean_data.py, geolocate_radiation_data)

merge_dataframes (utils.py lines 96-128) is a pandas left merge: every
radiation row is emitted once per matching municipality row, or once with
null municipality columns when no row matches; left order, then
municipality order, is preserved.  pd.to_datetime with errors="coerce" is
an external parser, kept as a parameter `parseDate`; a none result models
NaT and the row is dropped by the subsequent dropna.  The printed
retention report divides by the merged row count, which raises
ZeroDivisionError when it is zero; the model returns none in that case
and otherwise the cleaned table together with the reported fraction. -/

/-- Row of the cleaned radiation table (output of clean_radiation_data):
normalized municipality name, the raw sampling start date text, and the
remaining required columns as an association list. -/
structure RadClean where
  commune : String
  dateStartRaw : String
  payload : List (String × String)
  deriving DecidableEq

/-- Row of the merged table of the left join: the radiation row plus the
municipality columns, null when the join found no match. -/
structure MergedRow where
  rad : RadClean
  nom : Option String
  latitude : Option ℚ
  longitude : Option ℚ
  deriving DecidableEq

/-- Left merge of radiation rows with municipality rows on
commune = nom (clean_data.py lines 194-200 via utils.py merge_dataframes). -/
def mergeLeft (rad : List RadClean) (mun : List MunOut) : List MergedRow :=
  rad.flatMap (fun l =>
    let ms := mun.filter (fun m => decide (m.nom = l.commune))
    if ms.isEmpty then [⟨l, none, none, none⟩]
    else ms.map (fun m => ⟨l, some m.nom, m.latitude, m.longitude⟩))

/-- Row of the geolocated radiation table: coordinates are non-null and
the start date is parsed (clean_data.py lines 211-218). -/
structure GeoRadRow where
  dateStart : Int
  latitude : ℚ
  longitude : ℚ
  commune : String
  payload : List (String × String)
  deriving DecidableEq

/-- Rows kept by geolocate_radiation_data after the merge: drop rows with
a null coordinate (line 211), drop the join key column (line 214), parse
the start date and drop unparseable rows (lines 217-218). -/
def geoRows (parseDate : String → Option Int) (merged : List MergedRow) : List GeoRadRow :=
  merged.filterMap (fun m =>
    match m.latitude, m.longitude with
    | some la, some lo =>
      match parseDate m.rad.dateStartRaw with
      | some d => some ⟨d, la, lo, m.rad.commune, m.rad.payload⟩
      | none => none
    | _, _ => none)

/-- Model of geolocate_radiation_data: the merged table, its retention
report (kept = total - missing over total, line 220) and the cleaned
rows; none models the ZeroDivisionError of the report when the merged
table is empty. -/
def geolocate_radiation_data (parseDate : String → Option Int)
    (rad : List RadClean) (mun : List MunOut) : Option (List GeoRadRow × ℚ) :=
  let merged := mergeLeft rad mun
  let total := merged.length
  let missing := merged.countP (fun m => m.latitude.isNone)
  if total = 0 then none
  else some (geoRows parseDate merged, ((total - missing : ℕ) : ℚ) / (total : ℚ))

/-! ## Spatio-Temporal Associator (clean_data.py, associate_weather_to_radiation)

The weather table is grouped by date, the radiation table is iterated by
date group (pandas groupby: sorted distinct keys, original order within a
group), and for every radiation point of a day present in the weather
partition the single nearest weather point of that day is found with a
BallTree over the haversine metric on radian coordinates.  The metric is
transcendental, so it is kept as a parameter `hav` of the embedding
(taking the two degree coordinate pairs); the BallTree query k=1 is
modelled as the argmin with first-index tie-break.  The angular distance
is converted to meters with the Earth radius 6371000 (line 311), rows
beyond max_distance_m are dropped (lines 347-349), and one output row per
kept pair is emitted (lines 351-362).  The printed retention report
divides by the radiation row count, which raises ZeroDivisionError on an
empty radiation table; the model returns none in that case. -/

/-- Row of the cleaned weather table: parsed date, WGS84 coordinates,
snowfall (PRENEI) and rainfall (PRELIQ). -/
structure WeatherRow where
  date : Int
  latitude : ℚ
  longitude : ℚ
  prenei : ℚ
  preliq : ℚ
  deriving DecidableEq

/-- Metric parameter: angular distance of two points given in degrees
(latitude, longitude of each), modelling np.radians plus the BallTree
haversine metric. -/
def Hav : Type := ℚ → ℚ → ℚ → ℚ → ℚ

/-- Row of the associator output: the radiation row (asnr_row.to_dict())
plus the matched weather date (DATE_METEO), snowfall, rainfall and the
distance in meters (DISTANCE_RADIATION_WEATHER_M), clean_data.py lines
355-361. -/
structure AssocRow where
  rad : GeoRadRow
  dateMeteo : Int
  prenei : ℚ
  preliq : ℚ
  distM : ℚ
  deriving DecidableEq

/-- Nearest weather point of a list for the query point (la, lo): the
argmin of the metric with first-index tie-break, modelling
tree.query(radiation_coords, k=1); none exactly on the empty list. -/
def nearestWeather (hav : Hav) (la lo : ℚ) : List WeatherRow → Option (WeatherRow × ℚ)
  | [] => none
  | w :: ws =>
    let d := hav la lo w.latitude w.longitude
    match nearestWeather hav la lo ws with
    | none => some (w, d)
    | some (w2, d2) => if d ≤ d2 then some (w, d) else some (w2, d2)

/-- Weather rows of one calendar day, in table order (the group of
weather_by_date, clean_data.py lines 317-319). -/
def sameDayWeather (wea : List WeatherRow) (d : Int) : List WeatherRow :=
  wea.filter (fun w => decide (w.date = d))

/-- Earth radius in meters used for the haversine conversion
(clean_data.py line 311). -/
def earthRadiusM : ℚ := 6371000

/-- Result row of one radiation point against its day's weather subset:
the nearest weather point is attached when its distance in meters is
within the bound, otherwise the point is dropped (clean_data.py lines
343-362). -/
def assocOf (hav : Hav) (maxD : ℚ) (subsetW : List WeatherRow)
    (r : GeoRadRow) : Option AssocRow :=
  match nearestWeather hav r.latitude r.longitude subsetW with
  | none => none
  | some (w, d) =>
    if d * earthRadiusM ≤ maxD then
      some ⟨r, w.date, w.prenei, w.preliq, d * earthRadiusM⟩
    else none

/-- One day of the association loop: query the nearest same-day weather
point for every radiation row of the day, keep pairs within
max_distance_m, emit one output row per kept pair (clean_data.py lines
343-362). -/
def associateDay (hav : Hav) (maxD : ℚ) (subsetW : List WeatherRow)
    (subsetR : List GeoRadRow) : List AssocRow :=
  subsetR.filterMap (assocOf hav maxD subsetW)

/-- Distinct radiation dates in ascending order: the group keys of
radiation_df.groupby(date) (clean_data.py line 322). -/
def radiationDays (rad : List GeoRadRow) : List Int :=
  sortBy (fun a b => decide (a ≤ b)) (keepFirstBy id (rad.map GeoRadRow.dateStart) [])

/-- Association loop over the radiation day groups: days absent from the
weather partition are skipped silently (clean_data.py lines 324-325). -/
def associateRows (hav : Hav) (rad : List GeoRadRow) (wea : List WeatherRow)
    (maxD : ℚ) : List AssocRow :=
  (radiationDays rad).flatMap (fun day =>
    let subsetW := sameDayWeather wea day
    if subsetW.isEmpty then []
    else associateDay hav maxD subsetW (rad.filter (fun r => decide (r.dateStart = day))))

/-- Model of associate_weather_to_radiation: the associated rows together
with the printed retention fraction (line 366); none models the
ZeroDivisionError of that report on an empty radiation table. -/
def associate_weather_to_radiation (hav : Hav) (rad : List GeoRadRow)
    (wea : List WeatherRow) (maxD : ℚ) : Option (List AssocRow × ℚ) :=
  let res := associateRows hav rad wea maxD
  if rad.length = 0 then none
  else some (res, (res.length : ℚ) / (rad.length : ℚ))

/-! ## Concrete sample data

Small concrete tables used to evaluate the embedded functions in the
closed instance theorems below. -/

/-- Degenerate metric (everything at angular distance zero), a legal
instance of the abstract haversine parameter. -/
def havZero : Hav := fun _ _ _ _ => 0

/-- Date parser instance mapping every text to day 0. -/
def parseDateEx : String → Option Int := fun _ => some 0

/-- Sample gazetteer row: Paris with primary coordinates. -/
def munRawParis : MunRaw := ⟨"Paris", some 48, none, some 2, none, 2000000⟩

/-- Second sample gazetteer row with the same cleaned name as Paris and a
smaller population. -/
def munRawParisBis : MunRaw := ⟨"paris", some 49, none, some 3, none, 500⟩

/-- Sample gazetteer row with fallback coordinates only. -/
def munRawLyon : MunRaw := ⟨"Lyon", none, some 45, none, some 4, 500000⟩

/-- Sample municipality DataFrame state before the cleaning call. -/
def munDFEx : MunDF := ⟨[munRawParis, munRawParisBis, munRawLyon], none, none, none⟩

/-- Sample cleaned radiation row. -/
def radCleanEx : RadClean := ⟨"PARIS", "2024-01-01", []⟩

/-- Sample cleaned municipality row. -/
def munOutParis : MunOut := ⟨"PARIS", some 48, some 2⟩

/-- Sample geolocated radiation row on day 0. -/
def geoRadEx : GeoRadRow := ⟨0, 48, 2, "PARIS", []⟩

/-- Sample weather row on day 0 at the same point. -/
def weaEx : WeatherRow := ⟨0, 48, 2, 0, 5⟩

/-! ## Lemmas on the normalization model -/

/-- Value of a table lookup: the query itself, or one of the table
values. -/
theorem tlookup_self_or_mem {α : Type} [DecidableEq α] (t : List (α × α)) (c : α) :
    tlookup t c = c ∨ tlookup t c ∈ t.map Prod.snd := by
  induction t with
  | nil => exact Or.inl rfl
  | cons p rest ih =>
    obtain ⟨k, v⟩ := p
    by_cases h : c = k
    · subst h
      simp [tlookup]
    · simp only [tlookup, if_neg h, List.map_cons]
      rcases ih with h2 | h2
      · exact Or.inl h2
      · exact Or.inr (List.mem_cons_of_mem _ h2)

/-- Values of the upper table are fixed points of the upper map. -/
theorem upperChar_fix_of_value : ∀ v ∈ upperPairs.map Prod.snd, upperChar v = v := by
  decide

/-- Values of the unidecode table are fixed points of both character
maps. -/
theorem unidecode_value_fix :
    ∀ u ∈ unidecodePairs.map Prod.snd, upperChar u = u ∧ unidecodeChar u = u := by
  decide

/-- Output characters of the composite normalization are fixed points of
both character maps. -/
theorem normChar_fix (c : Char) :
    upperChar (normChar c) = normChar c ∧ unidecodeChar (normChar c) = normChar c := by
  unfold normChar
  rcases tlookup_self_or_mem upperPairs c with h1 | h1
  · show upperChar (unidecodeChar (upperChar c)) = _ ∧ _
    rw [show upperChar c = c from h1]
    rcases tlookup_self_or_mem unidecodePairs c with h2 | h2
    · rw [show unidecodeChar c = c from h2]
      exact ⟨h1, h2⟩
    · exact unidecode_value_fix _ h2
  · rcases tlookup_self_or_mem unidecodePairs (upperChar c) with h2 | h2
    · show upperChar (unidecodeChar (upperChar c)) = _ ∧ _
      rw [show unidecodeChar (upperChar c) = upperChar c from h2]
      exact ⟨upperChar_fix_of_value _ h1, h2⟩
    · exact unidecode_value_fix _ h2

/-- Idempotence of the composite character normalization. -/
theorem normChar_idem (c : Char) : normChar (normChar c) = normChar c := by
  have h := normChar_fix c
  show unidecodeChar (upperChar (normChar c)) = normChar c
  rw [h.1, h.2]

/-- Characters of the stripped list come from the original list. -/
theorem mem_stripLApostrophe {c : Char} {l : List Char}
    (h : c ∈ stripLApostrophe l) : c ∈ l := by
  match l with
  | [] => exact h
  | [c1] => exact h
  | c1 :: c2 :: rest =>
    have h2 : c ∈ if c1 == 'L' && c2 == apos then rest else c1 :: c2 :: rest := h
    by_cases hb : (c1 == 'L' && c2 == apos) = true
    · rw [if_pos hb] at h2
      exact List.mem_cons_of_mem _ (List.mem_cons_of_mem _ h2)
    · rw [if_neg hb] at h2
      exact h2

/-- Stripping is the identity on lists that do not start with "L" +
apostrophe. -/
theorem stripLApostrophe_of_not_startsLA {l : List Char}
    (h : startsLA l = false) : stripLApostrophe l = l := by
  match l with
  | [] => rfl
  | [c1] => rfl
  | c1 :: c2 :: rest =>
    have h2 : (c1 == 'L' && c2 == apos) = false := h
    show (if c1 == 'L' && c2 == apos then rest else c1 :: c2 :: rest) = c1 :: c2 :: rest
    rw [if_neg (by simp [h2])]

/-- Character-list normalization as a strip of a single map. -/
theorem normalizeL_eq_strip_map (l : List Char) :
    normalizeL l = stripLApostrophe (l.map normChar) := by
  unfold normalizeL
  rw [List.map_map]
  rfl

/-- Normalized character lists are fixed by the character map. -/
theorem map_normChar_normalizeL (l : List Char) :
    (normalizeL l).map normChar = normalizeL l := by
  rw [normalizeL_eq_strip_map]
  have hfix : ∀ c ∈ stripLApostrophe (l.map normChar), normChar c = c := by
    intro c hc
    have hc2 : c ∈ l.map normChar := mem_stripLApostrophe hc
    obtain ⟨a, _, rfl⟩ := List.mem_map.mp hc2
    exact normChar_idem a
  calc (stripLApostrophe (l.map normChar)).map normChar
      = (stripLApostrophe (l.map normChar)).map id := List.map_congr_left hfix
    _ = stripLApostrophe (l.map normChar) := List.map_id _

/-! ## Claim C3: idempotence of the name normalization -/

/-- Claim C3, counterexample: the normalization is not idempotent on every
string.  On the string "L" + apostrophe + "L" + apostrophe + "A" one pass
strips a single leading prefix and leaves a string that still starts with
"L" + apostrophe, so a second pass strips again. -/
theorem normalizeName_not_idempotent :
    normalizeName (normalizeName (String.mk ['L', apos, 'L', apos, 'A'])) ≠
      normalizeName (String.mk ['L', apos, 'L', apos, 'A']) := by
  decide

/-- Claim C3, amended: the municipality-name normalization is idempotent
on every string whose normalized form does not again start with "L" +
apostrophe (re-normalizing an already-normalized such name yields the
same string). -/
theorem normalizeName_idempotent_of_no_LA (s : String)
    (h : startsLA (normalizeName s).data = false) :
    normalizeName (normalizeName s) = normalizeName s := by
  show String.mk (normalizeL (normalizeName s).data) = normalizeName s
  have hdata : (normalizeName s).data = normalizeL s.data := rfl
  rw [hdata] at h ⊢
  rw [normalizeL_eq_strip_map (normalizeL s.data), map_normChar_normalizeL,
    stripLApostrophe_of_not_startsLA h]
  rfl

/-- Claim C3 witness: a concrete string on which the amended idempotence
theorem applies. -/
theorem normalizeName_idempotent_witness :
    startsLA (normalizeName "Paris").data = false ∧
      normalizeName (normalizeName "Paris") = normalizeName "Paris" :=
  ⟨by decide, normalizeName_idempotent_of_no_LA "Paris" (by decide)⟩

/-! ## Claim C6: concatenation with an empty match set -/

/-- Claim C6, counterexample: with no matching file the Radiation
Concatenator does not return an empty table; pandas concat of the empty
frame list raises ValueError, modelled by the error value. -/
theorem concatenate_csv_files_empty_cex :
    concatenate_csv_files [] RADIATION_medium_mapping =
        Except.error "No objects to concatenate" ∧
      concatenate_csv_files [] RADIATION_medium_mapping ≠
        Except.ok ([] : List RadTaggedRow) := by
  exact ⟨rfl, fun h => Except.noConfusion h⟩

/-- Claim C6, amended: with no matching file, concatenate_csv_files
raises (pd.concat receives an empty list of frames), for every medium
mapping; it does not return an empty table. -/
theorem concatenate_csv_files_empty_error (mapping : List (String × String)) :
    concatenate_csv_files [] mapping = Except.error "No objects to concatenate" := rfl

/-! ## Claim C7: the final rename is never applied -/

/-- Claim C7: the table written by clean_all_data keeps the original
column names; the human-readable labels of the CLEANED_DATA_CONFIG rename
table never appear, because neither clean_all_data nor any stage invokes
rename_columns.  The final conjunct shows the rename table is not a
no-op on these columns, so applying it was observable. -/
theorem clean_all_data_columns_not_renamed :
    "Résultat" ∈ clean_all_data_output_columns ∧
      "PRENEI" ∈ clean_all_data_output_columns ∧
      "DISTANCE_RADIATION_WEATHER_M" ∈ clean_all_data_output_columns ∧
      "Result radioactivity" ∉ clean_all_data_output_columns ∧
      "Snowfall" ∉ clean_all_data_output_columns ∧
      "Distance measurement weather and radiation m" ∉ clean_all_data_output_columns ∧
      clean_all_data_output_columns.map applyRename ≠ clean_all_data_output_columns := by
  decide

/-! ## Lemmas on sorting and keep-first deduplication -/

/-- Insertion produces a permutation of consing. -/
theorem insertBy_perm {α : Type} (le : α → α → Bool) (x : α) (l : List α) :
    (insertBy le x l).Perm (x :: l) := by
  induction l with
  | nil => exact List.Perm.refl _
  | cons y ys ih =>
    by_cases h : le x y = true
    · rw [insertBy, if_pos h]
    · rw [insertBy, if_neg h]
      exact (ih.cons y).trans (List.Perm.swap x y ys)

/-- Insertion sort produces a permutation of the input. -/
theorem sortBy_perm {α : Type} (le : α → α → Bool) (l : List α) :
    (sortBy le l).Perm l := by
  induction l with
  | nil => exact List.Perm.refl _
  | cons x xs ih => exact (insertBy_perm le x (sortBy le xs)).trans (ih.cons x)

/-- Insertion into a sorted list keeps it sorted, for a total transitive
boolean relation. -/
theorem insertBy_pairwise {α : Type} {le : α → α → Bool}
    (htot : ∀ a b, le a b = true ∨ le b a = true)
    (htrans : ∀ a b c, le a b = true → le b c = true → le a c = true)
    (x : α) {l : List α} (h : l.Pairwise (fun a b => le a b = true)) :
    (insertBy le x l).Pairwise (fun a b => le a b = true) := by
  induction l with
  | nil => simp [insertBy]
  | cons y ys ih =>
    rcases List.pairwise_cons.mp h with ⟨hy, hys⟩
    by_cases hxy : le x y = true
    · rw [insertBy, if_pos hxy]
      refine List.pairwise_cons.mpr ⟨?_, h⟩
      intro z hz
      rcases List.mem_cons.mp hz with rfl | hz2
      · exact hxy
      · exact htrans x y z hxy (hy z hz2)
    · rw [insertBy, if_neg hxy]
      refine List.pairwise_cons.mpr ⟨?_, ih hys⟩
      intro z hz
      have hz2 : z ∈ x :: ys := (insertBy_perm le x ys).mem_iff.mp hz
      rcases List.mem_cons.mp hz2 with he | hz3
      · rw [he]
        rcases htot x y with hc | hc
        · exact absurd hc hxy
        · exact hc
      · exact hy z hz3

/-- Insertion sort sorts, for a total transitive boolean relation. -/
theorem sortBy_pairwise {α : Type} {le : α → α → Bool}
    (htot : ∀ a b, le a b = true ∨ le b a = true)
    (htrans : ∀ a b c, le a b = true → le b c = true → le a c = true)
    (l : List α) : (sortBy le l).Pairwise (fun a b => le a b = true) := by
  induction l with
  | nil => simp [sortBy]
  | cons x xs ih => exact insertBy_pairwise htot htrans x ih

/-- Every kept element is a first occurrence: its key is unseen, and it
splits the list with no earlier element of the same key. -/
theorem keepFirstBy_first {α β : Type} [DecidableEq β] (key : α → β) :
    ∀ (l : List α) (seen : List β) (x : α), x ∈ keepFirstBy key l seen →
      key x ∉ seen ∧ ∃ pre suf, l = pre ++ x :: suf ∧ ∀ y ∈ pre, key y ≠ key x := by
  intro l
  induction l with
  | nil => intro seen x hx; exact absurd hx (List.not_mem_nil x)
  | cons a xs ih =>
    intro seen x hx
    by_cases ha : key a ∈ seen
    · rw [keepFirstBy, if_pos ha] at hx
      obtain ⟨hns, pre, suf, hdec, hpre⟩ := ih seen x hx
      refine ⟨hns, a :: pre, suf, by rw [hdec]; rfl, ?_⟩
      intro y hy
      rcases List.mem_cons.mp hy with rfl | hy2
      · exact fun he => hns (he ▸ ha)
      · exact hpre y hy2
    · rw [keepFirstBy, if_neg ha] at hx
      rcases List.mem_cons.mp hx with rfl | hx2
      · exact ⟨ha, [], xs, rfl, by intro y hy; exact absurd hy (List.not_mem_nil y)⟩
      · obtain ⟨hns, pre, suf, hdec, hpre⟩ := ih (key a :: seen) x hx2
        have hax : key a ≠ key x := fun he => hns (he ▸ List.mem_cons_self _ _)
        refine ⟨fun hs => hns (List.mem_cons_of_mem _ hs), a :: pre, suf,
          by rw [hdec]; rfl, ?_⟩
        intro y hy
        rcases List.mem_cons.mp hy with rfl | hy2
        · exact hax
        · exact hpre y hy2

/-- Key count after keep-first deduplication: zero for an already-seen
key, otherwise one exactly when the key occurs. -/
theorem countP_keepFirstBy {α β : Type} [DecidableEq β] (key : α → β) (n : β) :
    ∀ (l : List α) (seen : List β),
      (keepFirstBy key l seen).countP (fun x => decide (key x = n)) =
        if n ∈ seen then 0 else min 1 (l.countP (fun x => decide (key x = n))) := by
  intro l
  induction l with
  | nil => intro seen; by_cases hn : n ∈ seen <;> simp [keepFirstBy, hn]
  | cons a xs ih =>
    intro seen
    by_cases ha : key a ∈ seen
    · rw [keepFirstBy, if_pos ha, ih]
      by_cases hn : n ∈ seen
      · simp [hn]
      · have han : ¬(key a = n) := fun he => hn (he ▸ ha)
        simp [hn, List.countP_cons, han]
    · rw [keepFirstBy, if_neg ha, List.countP_cons, ih]
      by_cases hn : n ∈ seen
      · have han : ¬(key a = n) := fun he => ha (he ▸ hn)
        have hn2 : n ∈ key a :: seen := List.mem_cons_of_mem _ hn
        simp [hn, hn2, han]
      · by_cases han : key a = n
        · have hn2 : n ∈ key a :: seen := han ▸ List.mem_cons_self _ _
          rw [if_pos hn2, if_neg hn, List.countP_cons]
          simp [han]
        · have hn2 : n ∉ key a :: seen := by
            intro hc
            rcases List.mem_cons.mp hc with he | he
            · exact han he.symm
            · exact hn he
          rw [if_neg hn2, if_neg hn, List.countP_cons]
          simp [han]

/-- First occurrence in a population-descending list has the maximal
population among its key group. -/
theorem sorted_first_key_max {α β : Type} [DecidableEq β] (key : α → β)
    (pop : α → Int) (s pre suf : List α) (x : α)
    (hs : s.Pairwise (fun a b => pop b ≤ pop a))
    (hdec : s = pre ++ x :: suf)
    (hpre : ∀ y ∈ pre, key y ≠ key x) :
    ∀ y ∈ s, key y = key x → pop y ≤ pop x := by
  intro y hy hkey
  subst hdec
  rcases List.mem_append.mp hy with hy2 | hy2
  · exact absurd hkey (hpre y hy2)
  · rcases List.mem_cons.mp hy2 with rfl | hy3
    · exact le_refl _
    · rcases List.pairwise_append.mp hs with ⟨_, hxs, _⟩
      exact (List.pairwise_cons.mp hxs).1 y hy3

/-- Totality of the descending-population comparison. -/
theorem popGe_total (a b : MunClean) : popGe a b = true ∨ popGe b a = true := by
  unfold popGe
  rcases le_total b.raw.population a.raw.population with h | h
  · exact Or.inl (decide_eq_true h)
  · exact Or.inr (decide_eq_true h)

/-- Transitivity of the descending-population comparison. -/
theorem popGe_trans (a b c : MunClean) (h1 : popGe a b = true)
    (h2 : popGe b c = true) : popGe a c = true := by
  unfold popGe at h1 h2 ⊢
  exact decide_eq_true (le_trans (of_decide_eq_true h2) (of_decide_eq_true h1))

/-! ## Claim C4: municipality deduplication keeps the most populous row -/

/-- Claim C4: in the output of clean_municipality_data, every distinct
cleaned municipality name appears in exactly one row, and that row is the
projection of an input row of that cleaned name whose population is
maximal among all input rows sharing the name. -/
theorem clean_municipality_dedup_max (df : MunDF) (n : String)
    (hn : n ∈ (clean_municipality_data df).2.map MunOut.nom) :
    (clean_municipality_data df).2.countP (fun o => decide (o.nom = n)) = 1 ∧
    ∃ r, r ∈ df.rows ∧ munNomClean r = n ∧
      (∀ q ∈ df.rows, munNomClean q = n → q.population ≤ r.population) ∧
      munProject (munCleanOf r) ∈ (clean_municipality_data df).2 := by
  have hout : (clean_municipality_data df).2 =
      (keepFirstBy MunClean.nom (sortBy popGe (df.rows.map munCleanOf)) []).map munProject := rfl
  have hperm : (sortBy popGe (df.rows.map munCleanOf)).Perm (df.rows.map munCleanOf) :=
    sortBy_perm _ _
  have hsorted : (sortBy popGe (df.rows.map munCleanOf)).Pairwise
      (fun a b => b.raw.population ≤ a.raw.population) :=
    (sortBy_pairwise popGe_total popGe_trans _).imp (fun h => of_decide_eq_true h)
  rw [hout, List.map_map] at hn
  obtain ⟨x, hxdedup, hxnom⟩ := List.mem_map.mp hn
  have hxnom2 : x.nom = n := hxnom
  obtain ⟨-, pre, suf, hdec, hpre⟩ := keepFirstBy_first MunClean.nom _ [] x hxdedup
  have hxs : x ∈ sortBy popGe (df.rows.map munCleanOf) := by
    rw [hdec]
    exact List.mem_append.mpr (Or.inr (List.mem_cons_self _ _))
  constructor
  · have hcount : (clean_municipality_data df).2.countP (fun o => decide (o.nom = n)) =
        (keepFirstBy MunClean.nom (sortBy popGe (df.rows.map munCleanOf)) []).countP
          (fun y => decide (y.nom = n)) := by
      rw [hout, List.countP_map]
      rfl
    have hpos : 0 < (sortBy popGe (df.rows.map munCleanOf)).countP
        (fun y => decide (y.nom = n)) :=
      List.countP_pos_iff.mpr ⟨x, hxs, by simp [hxnom2]⟩
    rw [hcount, countP_keepFirstBy, if_neg (List.not_mem_nil n)]
    omega
  · obtain ⟨r, hr, hrx⟩ := List.mem_map.mp (hperm.mem_iff.mp hxs)
    have hxr : x.raw = r := by rw [← hrx]; exact rfl
    refine ⟨r, hr, ?_, ?_, ?_⟩
    · calc munNomClean r = (munCleanOf r).nom := rfl
        _ = x.nom := by rw [hrx]
        _ = n := hxnom2
    · intro q hq hqn
      have hq2 : munCleanOf q ∈ sortBy popGe (df.rows.map munCleanOf) :=
        hperm.mem_iff.mpr (List.mem_map_of_mem _ hq)
      have hqkey : (munCleanOf q).nom = x.nom := by
        show munNomClean q = x.nom
        rw [hqn, hxnom2]
      have hle := sorted_first_key_max MunClean.nom (fun a => a.raw.population)
        _ pre suf x hsorted hdec hpre (munCleanOf q) hq2 hqkey
      have hle2 : q.population ≤ x.raw.population := hle
      rw [hxr] at hle2
      exact hle2
    · rw [hout]
      have hpr : munProject (munCleanOf r) = munProject x := by rw [hrx]
      rw [hpr]
      exact List.mem_map_of_mem _ hxdedup

/-- Claim C4 witness: the sample gazetteer has two rows cleaning to
"PARIS"; the output keeps exactly one, with the larger population. -/
theorem clean_municipality_dedup_max_witness :
    "PARIS" ∈ (clean_municipality_data munDFEx).2.map MunOut.nom ∧
      ((clean_municipality_data munDFEx).2.countP (fun o => decide (o.nom = "PARIS")) = 1 ∧
      ∃ r, r ∈ munDFEx.rows ∧ munNomClean r = "PARIS" ∧
        (∀ q ∈ munDFEx.rows, munNomClean q = "PARIS" → q.population ≤ r.population) ∧
        munProject (munCleanOf r) ∈ (clean_municipality_data munDFEx).2) :=
  ⟨by decide, clean_municipality_dedup_max munDFEx "PARIS" (by decide)⟩

/-! ## Claim C9: the Municipality Cleaner mutates its input -/

/-- Claim C9, counterexample: clean_municipality_data does not leave the
DataFrame passed to it unchanged; on the sample table the object differs
after the call (three columns were assigned into it). -/
theorem clean_municipality_data_mutates_cex :
    (clean_municipality_data munDFEx).1 ≠ munDFEx := by decide

/-- Claim C9, amended: clean_municipality_data mutates the caller's
DataFrame by assigning the cleaned-name, latitude and longitude columns
into it (clean_data.py lines 146-161); the rows and original columns are
otherwise unchanged, and the subsequent sort, deduplication and
projection (lines 164-170) build a new frame without further mutation. -/
theorem clean_municipality_data_mutation (df : MunDF) :
    (clean_municipality_data df).1.rows = df.rows ∧
    (clean_municipality_data df).1.nom = some (df.rows.map munNomClean) ∧
    (clean_municipality_data df).1.latitude = some (df.rows.map munLatClean) ∧
    (clean_municipality_data df).1.longitude = some (df.rows.map munLonClean) := by
  refine ⟨rfl, ?_, ?_, ?_⟩
  · show some ((df.rows.map munCleanOf).map MunClean.nom) = _
    rw [List.map_map]; exact rfl
  · show some ((df.rows.map munCleanOf).map MunClean.latitude) = _
    rw [List.map_map]; exact rfl
  · show some ((df.rows.map munCleanOf).map MunClean.longitude) = _
    rw [List.map_map]; exact rfl

/-! ## Lemmas on the Geolocator -/

/-- Under distinct cleaned names, at most one municipality row matches a
given commune. -/
theorem filter_nom_length_le_one (mun : List MunOut)
    (huniq : (mun.map MunOut.nom).Nodup) (c : String) :
    (mun.filter (fun m => decide (m.nom = c))).length ≤ 1 := by
  induction mun with
  | nil => simp
  | cons m ms ih =>
    rw [List.map_cons, List.nodup_cons] at huniq
    by_cases h : m.nom = c
    · rw [List.filter_cons, if_pos (by simp [h])]
      have hnil : ms.filter (fun m2 => decide (m2.nom = c)) = [] := by
        rw [List.filter_eq_nil_iff]
        intro a ha hpa
        have hac : a.nom = c := of_decide_eq_true hpa
        exact huniq.1 (by rw [h, ← hac]; exact List.mem_map_of_mem _ ha)
      simp [hnil]
    · rw [List.filter_cons, if_neg (by simp [h])]
      exact ih huniq.2

/-- Under distinct cleaned names the left join adds no rows: the merged
table has exactly one row per radiation row. -/
theorem mergeLeft_length (rad : List RadClean) (mun : List MunOut)
    (huniq : (mun.map MunOut.nom).Nodup) :
    (mergeLeft rad mun).length = rad.length := by
  induction rad with
  | nil => rfl
  | cons l ls ih =>
    have hcons : mergeLeft (l :: ls) mun =
        (if (mun.filter (fun m => decide (m.nom = l.commune))).isEmpty
          then [(⟨l, none, none, none⟩ : MergedRow)]
          else (mun.filter (fun m => decide (m.nom = l.commune))).map
            (fun m => ⟨l, some m.nom, m.latitude, m.longitude⟩)) ++
          mergeLeft ls mun := rfl
    have hpiece : (if (mun.filter (fun m => decide (m.nom = l.commune))).isEmpty
        then [(⟨l, none, none, none⟩ : MergedRow)]
        else (mun.filter (fun m => decide (m.nom = l.commune))).map
          (fun m => ⟨l, some m.nom, m.latitude, m.longitude⟩)).length = 1 := by
      by_cases he : (mun.filter (fun m => decide (m.nom = l.commune))).isEmpty = true
      · rw [if_pos he]
        rfl
      · rw [if_neg he, List.length_map]
        have h1 := filter_nom_length_le_one mun huniq l.commune
        have h2 : (mun.filter (fun m => decide (m.nom = l.commune))).length ≠ 0 := by
          intro h0
          exact he (by rw [List.isEmpty_iff_length_eq_zero]; exact h0)
        omega
    rw [hcons, List.length_append, ih, List.length_cons, hpiece]
    omega

/-- Kept count of the merged table: total minus missing equals the count
of rows with a non-null matched latitude. -/
theorem length_sub_countP_none (merged : List MergedRow) :
    merged.length - merged.countP (fun m => m.latitude.isNone) =
      merged.countP (fun m => m.latitude.isSome) := by
  induction merged with
  | nil => rfl
  | cons m ms ih =>
    have hmiss : ms.countP (fun m2 => m2.latitude.isNone) ≤ ms.length :=
      List.countP_le_length _
    rw [List.countP_cons, List.countP_cons, List.length_cons]
    cases hm : m.latitude with
    | none => simp [hm]; omega
    | some v => simp [hm]; omega

/-! ## Claim C5: the geolocation retention report is exact -/

/-- Claim C5: when the municipality table has at most one row per cleaned
name and the radiation input is nonempty, geolocate_radiation_data
returns its rows together with a reported fraction equal to the count of
joined rows with a non-null matched latitude divided by the count of
input radiation rows. -/
theorem geolocate_report_exact (parseDate : String → Option Int)
    (rad : List RadClean) (mun : List MunOut)
    (huniq : (mun.map MunOut.nom).Nodup) (hne : rad ≠ []) :
    geolocate_radiation_data parseDate rad mun =
      some (geoRows parseDate (mergeLeft rad mun),
        ((mergeLeft rad mun).countP (fun m => m.latitude.isSome) : ℚ) /
          (rad.length : ℚ)) := by
  have hlen := mergeLeft_length rad mun huniq
  have hne2 : ¬((mergeLeft rad mun).length = 0) := by
    rw [hlen]
    intro h0
    exact hne (List.length_eq_zero.mp h0)
  show (if (mergeLeft rad mun).length = 0 then none
    else some (geoRows parseDate (mergeLeft rad mun),
      (((mergeLeft rad mun).length -
        (mergeLeft rad mun).countP (fun m => m.latitude.isNone) : ℕ) : ℚ) /
        ((mergeLeft rad mun).length : ℚ))) = _
  rw [if_neg hne2, length_sub_countP_none, hlen]

/-- Claim C5 witness: one radiation row joined against a one-row
municipality table. -/
theorem geolocate_report_exact_witness :
    (([munOutParis] : List MunOut).map MunOut.nom).Nodup ∧
      ([radCleanEx] : List RadClean) ≠ [] ∧
      geolocate_radiation_data parseDateEx [radCleanEx] [munOutParis] =
        some (geoRows parseDateEx (mergeLeft [radCleanEx] [munOutParis]),
          ((mergeLeft [radCleanEx] [munOutParis]).countP (fun m => m.latitude.isSome) : ℚ) /
            (([radCleanEx] : List RadClean).length : ℚ)) :=
  ⟨by decide, by decide,
    geolocate_report_exact parseDateEx [radCleanEx] [munOutParis] (by decide) (by decide)⟩

/-! ## Claim C10: empty radiation input raises in the retention reports -/

/-- Claim C10: on an empty radiation table, both geolocate_radiation_data
and associate_weather_to_radiation hit a division by zero while computing
their retention report (the merged row count, respectively the radiation
row count, is the denominator), modelled by the none result; no empty
table is returned. -/
theorem empty_radiation_table_raises (parseDate : String → Option Int)
    (mun : List MunOut) (hav : Hav) (wea : List WeatherRow) (maxD : ℚ) :
    geolocate_radiation_data parseDate [] mun = none ∧
      associate_weather_to_radiation hav [] wea maxD = none :=
  ⟨rfl, rfl⟩

/-! ## Lemmas on the Associator -/

/-- Nearest-neighbor query of a nonempty list never fails. -/
theorem nearestWeather_cons_ne_none (hav : Hav) (la lo : ℚ) (b : WeatherRow)
    (bs : List WeatherRow) : nearestWeather hav la lo (b :: bs) ≠ none := by
  intro h
  rw [nearestWeather] at h
  cases h2 : nearestWeather hav la lo bs with
  | none =>
    rw [h2] at h
    exact Option.noConfusion
      (show (some (b, hav la lo b.latitude b.longitude) : Option (WeatherRow × ℚ)) = none from h)
  | some p =>
    obtain ⟨w3, d3⟩ := p
    rw [h2] at h
    have h3 : (if hav la lo b.latitude b.longitude ≤ d3
        then some (b, hav la lo b.latitude b.longitude)
        else some (w3, d3)) = (none : Option (WeatherRow × ℚ)) := h
    by_cases hle : hav la lo b.latitude b.longitude ≤ d3
    · rw [if_pos hle] at h3
      exact Option.noConfusion h3
    · rw [if_neg hle] at h3
      exact Option.noConfusion h3

/-- Specification of the nearest-neighbor query: it returns a member of
the list, its stored distance is the metric value at that member, and no
member is strictly closer (first-index tie-break). -/
theorem nearestWeather_spec (hav : Hav) (la lo : ℚ) :
    ∀ (ws : List WeatherRow) (w : WeatherRow) (d : ℚ),
      nearestWeather hav la lo ws = some (w, d) →
      w ∈ ws ∧ d = hav la lo w.latitude w.longitude ∧
        ∀ w2 ∈ ws, d ≤ hav la lo w2.latitude w2.longitude := by
  intro ws
  induction ws with
  | nil =>
    intro w d h
    exact Option.noConfusion h
  | cons a as ih =>
    intro w d h
    rw [nearestWeather] at h
    cases hrec : nearestWeather hav la lo as with
    | none =>
      rw [hrec] at h
      have h2 : some (a, hav la lo a.latitude a.longitude) = some (w, d) := h
      have h3 := Option.some.inj h2
      obtain ⟨rfl, rfl⟩ : a = w ∧ hav la lo a.latitude a.longitude = d :=
        ⟨congrArg Prod.fst h3, congrArg Prod.snd h3⟩
      have has : as = [] := by
        cases as with
        | nil => rfl
        | cons b bs => exact absurd hrec (nearestWeather_cons_ne_none hav la lo b bs)
      subst has
      refine ⟨List.mem_cons_self _ _, rfl, ?_⟩
      intro w2 hw2
      rcases List.mem_cons.mp hw2 with he | he
      · rw [he]
      · exact absurd he (List.not_mem_nil w2)
    | some p =>
      obtain ⟨w2, d2⟩ := p
      rw [hrec] at h
      have h3 : (if hav la lo a.latitude a.longitude ≤ d2
          then some (a, hav la lo a.latitude a.longitude)
          else some (w2, d2)) = some (w, d) := h
      obtain ⟨hmem2, hd2, hmin2⟩ := ih w2 d2 hrec
      by_cases hle : hav la lo a.latitude a.longitude ≤ d2
      · rw [if_pos hle] at h3
        have h4 := Option.some.inj h3
        obtain ⟨rfl, rfl⟩ : a = w ∧ hav la lo a.latitude a.longitude = d :=
          ⟨congrArg Prod.fst h4, congrArg Prod.snd h4⟩
        refine ⟨List.mem_cons_self _ _, rfl, ?_⟩
        intro w3 hw3
        rcases List.mem_cons.mp hw3 with he | hw4
        · rw [he]
        · exact le_trans hle (hmin2 w3 hw4)
      · rw [if_neg hle] at h3
        have h4 := Option.some.inj h3
        obtain ⟨rfl, rfl⟩ : w2 = w ∧ d2 = d :=
          ⟨congrArg Prod.fst h4, congrArg Prod.snd h4⟩
        refine ⟨List.mem_cons_of_mem _ hmem2, hd2, ?_⟩
        intro w3 hw3
        rcases List.mem_cons.mp hw3 with he | hw4
        · rw [he]
          exact le_of_not_le hle
        · exact hmin2 w3 hw4

/-- Inversion of the per-row association: a produced row records the
nearest weather point, within the distance bound. -/
theorem assocOf_eq_some (hav : Hav) (maxD : ℚ) (W : List WeatherRow)
    (x : GeoRadRow) (row : AssocRow) (h : assocOf hav maxD W x = some row) :
    ∃ w d, nearestWeather hav x.latitude x.longitude W = some (w, d) ∧
      d * earthRadiusM ≤ maxD ∧
      row = ⟨x, w.date, w.prenei, w.preliq, d * earthRadiusM⟩ := by
  unfold assocOf at h
  cases hnw : nearestWeather hav x.latitude x.longitude W with
  | none =>
    rw [hnw] at h
    exact Option.noConfusion (show (none : Option AssocRow) = some row from h)
  | some p =>
    obtain ⟨w, d⟩ := p
    rw [hnw] at h
    have h2 : (if d * earthRadiusM ≤ maxD
        then some (⟨x, w.date, w.prenei, w.preliq, d * earthRadiusM⟩ : AssocRow)
        else none) = some row := h
    by_cases hle : d * earthRadiusM ≤ maxD
    · rw [if_pos hle] at h2
      exact ⟨w, d, rfl, hle, (Option.some.inj h2).symm⟩
    · rw [if_neg hle] at h2
      exact Option.noConfusion h2

/-- Inversion of the association loop: every output row comes from a
radiation row of its day, carries the data of the single nearest same-day
weather point, and satisfies the distance bound. -/
theorem mem_associateRows (hav : Hav) (rad : List GeoRadRow) (wea : List WeatherRow)
    (maxD : ℚ) (row : AssocRow) (h : row ∈ associateRows hav rad wea maxD) :
    ∃ x, x ∈ rad ∧ ∃ w d,
      row = ⟨x, w.date, w.prenei, w.preliq, d * earthRadiusM⟩ ∧
      nearestWeather hav x.latitude x.longitude (sameDayWeather wea x.dateStart) =
        some (w, d) ∧
      d * earthRadiusM ≤ maxD ∧ w.date = x.dateStart := by
  obtain ⟨day, hday, hrow⟩ := List.mem_flatMap.mp h
  have hrow2 : row ∈ (if (sameDayWeather wea day).isEmpty
      then ([] : List AssocRow)
      else associateDay hav maxD (sameDayWeather wea day)
        (rad.filter (fun r => decide (r.dateStart = day)))) := hrow
  by_cases hemp : (sameDayWeather wea day).isEmpty = true
  · rw [if_pos hemp] at hrow2
    exact absurd hrow2 (List.not_mem_nil row)
  · rw [if_neg hemp] at hrow2
    obtain ⟨x, hx, hfx⟩ := List.mem_filterMap.mp hrow2
    obtain ⟨hxrad, hxdec⟩ := List.mem_filter.mp hx
    have hxday : x.dateStart = day := of_decide_eq_true hxdec
    obtain ⟨w, d, hnw, hle, hroweq⟩ := assocOf_eq_some hav maxD _ x row hfx
    have hwmem := (nearestWeather_spec hav x.latitude x.longitude _ w d hnw).1
    have hwdate : w.date = day := of_decide_eq_true (List.mem_filter.mp hwmem).2
    subst hxday
    exact ⟨x, hxrad, w, d, hroweq, hnw, hle, hwdate⟩

/-- The rows-of-a-some helper: a successful association run returns
exactly the loop rows. -/
theorem associate_some_rows (hav : Hav) (rad : List GeoRadRow) (wea : List WeatherRow)
    (maxD : ℚ) (out : List AssocRow × ℚ)
    (h : associate_weather_to_radiation hav rad wea maxD = some out) :
    out.1 = associateRows hav rad wea maxD := by
  have h2 : (if rad.length = 0 then none
      else some (associateRows hav rad wea maxD,
        ((associateRows hav rad wea maxD).length : ℚ) / (rad.length : ℚ))) = some out := h
  by_cases hz : rad.length = 0
  · rw [if_pos hz] at h2
    exact Option.noConfusion h2
  · rw [if_neg hz] at h2
    rw [← Option.some.inj h2]

/-- Count bound through the per-row association: at most one output row
per radiation row occurrence. -/
theorem countP_filterMap_rad (g : GeoRadRow → Option AssocRow)
    (hg : ∀ x a, g x = some a → a.rad = x) (r : GeoRadRow) :
    ∀ l : List GeoRadRow,
      (l.filterMap g).countP (fun a => decide (a.rad = r)) ≤
        l.countP (fun x => decide (x = r)) := by
  intro l
  induction l with
  | nil => simp
  | cons x xs ih =>
    rw [List.filterMap_cons, List.countP_cons]
    cases hgx : g x with
    | none =>
      refine le_trans ih ?_
      omega
    | some a =>
      rw [List.countP_cons, hg x a hgx]
      omega

/-- Keys of a keep-first deduplication are distinct and unseen. -/
theorem keepFirstBy_nodup_keys {α β : Type} [DecidableEq β] (key : α → β) :
    ∀ (l : List α) (seen : List β),
      ((keepFirstBy key l seen).map key).Nodup ∧
        ∀ b ∈ (keepFirstBy key l seen).map key, b ∉ seen := by
  intro l
  induction l with
  | nil => intro seen; simp [keepFirstBy]
  | cons x xs ih =>
    intro seen
    by_cases hx : key x ∈ seen
    · rw [keepFirstBy, if_pos hx]
      exact ih seen
    · rw [keepFirstBy, if_neg hx]
      obtain ⟨hnd, hnotin⟩ := ih (key x :: seen)
      rw [List.map_cons]
      refine ⟨List.nodup_cons.mpr ⟨?_, hnd⟩, ?_⟩
      · intro hmem
        exact (hnotin _ hmem) (List.mem_cons_self _ _)
      · intro b hb
        rcases List.mem_cons.mp hb with he | hb2
        · rw [he]
          exact hx
        · exact fun hbs => (hnotin b hb2) (List.mem_cons_of_mem _ hbs)

/-- Distinct radiation group dates: the groupby keys are pairwise
different. -/
theorem radiationDays_nodup (rad : List GeoRadRow) : (radiationDays rad).Nodup := by
  unfold radiationDays
  have h := (keepFirstBy_nodup_keys id (rad.map GeoRadRow.dateStart) []).1
  rw [List.map_id] at h
  exact ((sortBy_perm _ _).nodup_iff).mpr h

/-- Count bound over the day loop: with pairwise distinct days, only the
group of a row's own date can contribute, and it is bounded by B. -/
theorem countP_flatMap_le (r : GeoRadRow) (B : ℕ) (f : Int → List AssocRow) :
    ∀ days : List Int, days.Nodup →
      (∀ day, day ≠ r.dateStart →
        (f day).countP (fun a => decide (a.rad = r)) = 0) →
      (f r.dateStart).countP (fun a => decide (a.rad = r)) ≤ B →
      (days.flatMap f).countP (fun a => decide (a.rad = r)) ≤ B := by
  intro days
  induction days with
  | nil =>
    intro _ _ _
    simp
  | cons d ds ih =>
    intro hnd hzero hbound
    rw [List.flatMap_cons, List.countP_append]
    rcases List.nodup_cons.mp hnd with ⟨hd, hds⟩
    by_cases hdr : d = r.dateStart
    · subst hdr
      have hrest : (ds.flatMap f).countP (fun a => decide (a.rad = r)) = 0 := by
        rw [List.countP_eq_zero]
        intro a ha
        obtain ⟨day, hday, ha2⟩ := List.mem_flatMap.mp ha
        have hne : day ≠ r.dateStart := fun he => hd (he ▸ hday)
        have h0 := hzero day hne
        rw [List.countP_eq_zero] at h0
        exact h0 a ha2
      omega
    · rw [hzero d hdr]
      have := ih hds hzero hbound
      omega

/-! ## Claim C1: distance bound of the Associator output -/

/-- Claim C1: every output row of associate_weather_to_radiation records
a distance at most max_distance_m, and that distance is the metric value
of the nearest same-day weather point multiplied by the Earth radius
6371000; radiation points whose nearest match exceeds the bound yield no
row (they are filtered before emission). -/
theorem associate_distance_bound (hav : Hav) (rad : List GeoRadRow)
    (wea : List WeatherRow) (maxD : ℚ) (out : List AssocRow × ℚ)
    (h : associate_weather_to_radiation hav rad wea maxD = some out)
    (row : AssocRow) (hrow : row ∈ out.1) :
    row.distM ≤ maxD ∧
    ∃ w d, nearestWeather hav row.rad.latitude row.rad.longitude
        (sameDayWeather wea row.rad.dateStart) = some (w, d) ∧
      row.distM = d * earthRadiusM ∧
      ∀ w2 ∈ sameDayWeather wea row.rad.dateStart,
        d ≤ hav row.rad.latitude row.rad.longitude w2.latitude w2.longitude := by
  rw [associate_some_rows hav rad wea maxD out h] at hrow
  obtain ⟨x, hxrad, w, d, hroweq, hnw, hle, hwd⟩ :=
    mem_associateRows hav rad wea maxD row hrow
  subst hroweq
  refine ⟨hle, w, d, hnw, rfl, ?_⟩
  intro w2 hw2
  exact (nearestWeather_spec hav _ _ _ w d hnw).2.2 w2 hw2

/-- Claim C1 witness: one radiation row and one weather row of the same
day, the degenerate metric giving distance 0 within the bound 0. -/
theorem associate_distance_bound_witness :
    associate_weather_to_radiation havZero [geoRadEx] [weaEx] 0 =
        some ([⟨geoRadEx, 0, 0, 5, 0⟩], 1) ∧
      (⟨geoRadEx, 0, 0, 5, 0⟩ : AssocRow) ∈
        (([(⟨geoRadEx, 0, 0, 5, 0⟩ : AssocRow)], (1 : ℚ)) : List AssocRow × ℚ).1 ∧
      ((⟨geoRadEx, 0, 0, 5, 0⟩ : AssocRow).distM ≤ 0 ∧
        ∃ w d, nearestWeather havZero (⟨geoRadEx, 0, 0, 5, 0⟩ : AssocRow).rad.latitude
            (⟨geoRadEx, 0, 0, 5, 0⟩ : AssocRow).rad.longitude
            (sameDayWeather [weaEx] (⟨geoRadEx, 0, 0, 5, 0⟩ : AssocRow).rad.dateStart) =
              some (w, d) ∧
          (⟨geoRadEx, 0, 0, 5, 0⟩ : AssocRow).distM = d * earthRadiusM ∧
          ∀ w2 ∈ sameDayWeather [weaEx] (⟨geoRadEx, 0, 0, 5, 0⟩ : AssocRow).rad.dateStart,
            d ≤ havZero (⟨geoRadEx, 0, 0, 5, 0⟩ : AssocRow).rad.latitude
              (⟨geoRadEx, 0, 0, 5, 0⟩ : AssocRow).rad.longitude w2.latitude w2.longitude) :=
  ⟨by simp [associate_weather_to_radiation, associateRows, radiationDays, keepFirstBy,
      sortBy, insertBy, sameDayWeather, associateDay, assocOf, nearestWeather,
      havZero, earthRadiusM, geoRadEx, weaEx],
    by decide,
    associate_distance_bound havZero [geoRadEx] [weaEx] 0
      ([⟨geoRadEx, 0, 0, 5, 0⟩], 1)
      (by simp [associate_weather_to_radiation, associateRows, radiationDays, keepFirstBy,
        sortBy, insertBy, sameDayWeather, associateDay, assocOf, nearestWeather,
        havZero, earthRadiusM, geoRadEx, weaEx])
      ⟨geoRadEx, 0, 0, 5, 0⟩ (by decide)⟩

/-! ## Claim C2: same-day, single-nearest-match invariants -/

/-- Claim C2: in every output row the attached weather date equals the
radiation sampling start date; the attached date, snowfall and rainfall
are those of the single nearest same-day weather point; and no radiation
row fans out: the output holds at most as many rows per radiation row as
the input does. -/
theorem associate_same_day_single_match (hav : Hav) (rad : List GeoRadRow)
    (wea : List WeatherRow) (maxD : ℚ) (out : List AssocRow × ℚ)
    (h : associate_weather_to_radiation hav rad wea maxD = some out) :
    (∀ row ∈ out.1, row.dateMeteo = row.rad.dateStart) ∧
    (∀ row ∈ out.1, ∃ w d,
      nearestWeather hav row.rad.latitude row.rad.longitude
          (sameDayWeather wea row.rad.dateStart) = some (w, d) ∧
        row.dateMeteo = w.date ∧ row.prenei = w.prenei ∧ row.preliq = w.preliq ∧
        row.distM = d * earthRadiusM) ∧
    (∀ r : GeoRadRow, out.1.countP (fun a => decide (a.rad = r)) ≤
      rad.countP (fun x => decide (x = r))) := by
  have hout := associate_some_rows hav rad wea maxD out h
  refine ⟨?_, ?_, ?_⟩
  · intro row hrow
    rw [hout] at hrow
    obtain ⟨x, hxrad, w, d, hroweq, hnw, hle, hwd⟩ :=
      mem_associateRows hav rad wea maxD row hrow
    subst hroweq
    exact hwd
  · intro row hrow
    rw [hout] at hrow
    obtain ⟨x, hxrad, w, d, hroweq, hnw, hle, hwd⟩ :=
      mem_associateRows hav rad wea maxD row hrow
    subst hroweq
    exact ⟨w, d, hnw, rfl, rfl, rfl, rfl⟩
  · intro r
    rw [hout]
    show ((radiationDays rad).flatMap (fun day =>
        if (sameDayWeather wea day).isEmpty then ([] : List AssocRow)
        else associateDay hav maxD (sameDayWeather wea day)
          (rad.filter (fun x => decide (x.dateStart = day))))).countP
        (fun a => decide (a.rad = r)) ≤ rad.countP (fun x => decide (x = r))
    refine countP_flatMap_le r _ _ (radiationDays rad) (radiationDays_nodup rad) ?_ ?_
    · intro day hne
      rw [List.countP_eq_zero]
      intro a ha
      have ha2 : a ∈ (if (sameDayWeather wea day).isEmpty
          then ([] : List AssocRow)
          else associateDay hav maxD (sameDayWeather wea day)
            (rad.filter (fun x => decide (x.dateStart = day)))) := ha
      by_cases hemp : (sameDayWeather wea day).isEmpty = true
      · rw [if_pos hemp] at ha2
        exact absurd ha2 (List.not_mem_nil a)
      · rw [if_neg hemp] at ha2
        obtain ⟨x, hx, hfx⟩ := List.mem_filterMap.mp ha2
        obtain ⟨w, d, hnw, hle, hroweq⟩ := assocOf_eq_some hav maxD _ x a hfx
        intro hdec
        have har : a.rad = r := of_decide_eq_true hdec
        have hax : a.rad = x := by rw [hroweq]
        have hxday : x.dateStart = day := of_decide_eq_true (List.mem_filter.mp hx).2
        exact hne (by rw [← hxday, ← hax, har])
    · show (if (sameDayWeather wea r.dateStart).isEmpty
          then ([] : List AssocRow)
          else associateDay hav maxD (sameDayWeather wea r.dateStart)
            (rad.filter (fun x => decide (x.dateStart = r.dateStart)))).countP
          (fun a => decide (a.rad = r)) ≤ rad.countP (fun x => decide (x = r))
      by_cases hemp : (sameDayWeather wea r.dateStart).isEmpty = true
      · rw [if_pos hemp]
        simp
      · rw [if_neg hemp]
        refine le_trans (countP_filterMap_rad (assocOf hav maxD (sameDayWeather wea r.dateStart))
          ?_ r (rad.filter (fun x => decide (x.dateStart = r.dateStart)))) ?_
        · intro x a hxa
          obtain ⟨w, d, hnw, hle, hroweq⟩ :=
            assocOf_eq_some hav maxD (sameDayWeather wea r.dateStart) x a hxa
          rw [hroweq]
        · rw [List.countP_filter]
          refine List.countP_mono_left ?_
          intro x hx hb
          rw [Bool.and_eq_true] at hb
          exact hb.1

/-- Claim C2 witness: the single produced row carries the weather date of
day 0, equal to the radiation start date. -/
theorem associate_same_day_single_match_witness :
    associate_weather_to_radiation havZero [geoRadEx] [weaEx] 0 =
        some ([⟨geoRadEx, 0, 0, 5, 0⟩], 1) ∧
      ((∀ row ∈ (([(⟨geoRadEx, 0, 0, 5, 0⟩ : AssocRow)], (1 : ℚ)) :
          List AssocRow × ℚ).1, row.dateMeteo = row.rad.dateStart) ∧
      (∀ row ∈ (([(⟨geoRadEx, 0, 0, 5, 0⟩ : AssocRow)], (1 : ℚ)) :
          List AssocRow × ℚ).1, ∃ w d,
        nearestWeather havZero row.rad.latitude row.rad.longitude
            (sameDayWeather [weaEx] row.rad.dateStart) = some (w, d) ∧
          row.dateMeteo = w.date ∧ row.prenei = w.prenei ∧ row.preliq = w.preliq ∧
          row.distM = d * earthRadiusM) ∧
      (∀ r : GeoRadRow, (([(⟨geoRadEx, 0, 0, 5, 0⟩ : AssocRow)], (1 : ℚ)) :
          List AssocRow × ℚ).1.countP (fun a => decide (a.rad = r)) ≤
        ([geoRadEx] : List GeoRadRow).countP (fun x => decide (x = r)))) :=
  ⟨by simp [associate_weather_to_radiation, associateRows, radiationDays, keepFirstBy,
      sortBy, insertBy, sameDayWeather, associateDay, assocOf, nearestWeather,
      havZero, earthRadiusM, geoRadEx, weaEx],
    associate_same_day_single_match havZero [geoRadEx] [weaEx] 0
      ([⟨geoRadEx, 0, 0, 5, 0⟩], 1)
      (by simp [associate_weather_to_radiation, associateRows, radiationDays, keepFirstBy,
        sortBy, insertBy, sameDayWeather, associateDay, assocOf, nearestWeather,
        havZero, earthRadiusM, geoRadEx, weaEx])⟩

/-! ## Claim C8: determinism of the Associator -/

/-- Claim C8: associate_weather_to_radiation is deterministic; on equal
radiation tables, equal weather tables and equal bounds it produces equal
outputs (same rows, same order, same report), the embedding being a pure
function with an explicit first-index tie-break. -/
theorem associate_deterministic (hav : Hav) (rad rad2 : List GeoRadRow)
    (wea wea2 : List WeatherRow) (maxD maxD2 : ℚ)
    (h1 : rad = rad2) (h2 : wea = wea2) (h3 : maxD = maxD2) :
    associate_weather_to_radiation hav rad wea maxD =
      associate_weather_to_radiation hav rad2 wea2 maxD2 := by
  subst h1
  subst h2
  subst h3
  rfl

/-- Claim C8 witness: two runs on the sample tables coincide. -/
theorem associate_deterministic_witness :
    ([geoRadEx] : List GeoRadRow) = [geoRadEx] ∧
      ([weaEx] : List WeatherRow) = [weaEx] ∧ (50000 : ℚ) = 50000 ∧
      associate_weather_to_radiation havZero [geoRadEx] [weaEx] 50000 =
        associate_weather_to_radiation havZero [geoRadEx] [weaEx] 50000 :=
  ⟨rfl, rfl, rfl,
    associate_deterministic havZero [geoRadEx] [geoRadEx] [weaEx] [weaEx]
      50000 50000 rfl rfl rfl⟩
